import Mathlib

/-!
Verification development for the jc-taxes yearly GeoJSON pipeline
(`src/jc_taxes/geojson_yearly.py`).

Shallow embedding conventions:
* currency and area values are modelled as exact rationals (`ℚ`); claims
  stated "within floating-point tolerance" become exact equalities here;
* the payment dictionary (`pay_dict`) is modelled as `String → Option Pay`,
  with Python `dict` insertion as pointwise update;
* pandas group-by / left-join steps are modelled with `Option`-valued group
  lookups followed by `getD` defaults (the `fillna(0)` steps);
* geometry enters only through the quantities the code actually uses
  (areas, bounding boxes, hole lists); opaque geometric operations
  (reprojection, dissolve, simplify) are abstract function parameters.

The file is organised as definitions first, then theorems.
-/

/-! ## Definitions -/

/-- One payment record: the `{"Paid": …, "Billed": …}` dict values held in
`pay_dict` (columns `Paid`, `Billed` summed per join key). -/
structure Pay where
  paid : ℚ
  billed : ℚ
  deriving Repr, DecidableEq

/-- `pay_dict`: a Python dict keyed by join key. -/
def PayMap : Type := String → Option Pay

/-- `pay_dict[key] = v`: pointwise dict update. -/
def insertPay (k : String) (v : Pay) (m : PayMap) : PayMap :=
  fun q => if q = k then some v else m q

/-- One entry of `OMNIBUS_LOT_GROUPS`. -/
structure OmnibusGroup where
  source : String
  lots : List String
  deriving Repr, DecidableEq

/-- The hardcoded omnibus override table (`OMNIBUS_LOT_GROUPS`). -/
def OMNIBUS_LOT_GROUPS : List OmnibusGroup :=
  [{ source := "18702-29", lots := ["18702-27", "18702-28", "18702-29"] }]

/-- First loop of the redistribution: `if key not in pay_dict:
pay_dict[key] = {"Paid": 0.0, "Billed": 0.0}` for each key of the group. -/
def ensureKeys (lots : List String) (m : PayMap) : PayMap :=
  lots.foldl (fun acc k =>
    match acc k with
    | some _ => acc
    | none => insertPay k ⟨0, 0⟩ acc) m

/-- Second loop: `pay_dict[key]["Paid"] = paid / n` etc. for each key. -/
def setSplit (lots : List String) (v : Pay) (m : PayMap) : PayMap :=
  lots.foldl (fun acc k => insertPay k v acc) m

/-- Body of `for group in OMNIBUS_LOT_GROUPS` (lines 450-463 of
`geojson_yearly.py`): skip when the source key is absent, otherwise read the
source totals, create missing sibling keys, then overwrite every sibling with
the even split. -/
def applyOmnibusGroup (m : PayMap) (g : OmnibusGroup) : PayMap :=
  match m g.source with
  | none => m
  | some src =>
    let n : ℚ := g.lots.length
    setSplit g.lots ⟨src.paid / n, src.billed / n⟩ (ensureKeys g.lots m)

/-- The whole redistribution pass over `OMNIBUS_LOT_GROUPS` (only run at
lot-granularity aggregation). -/
def redistributeOmnibus (m : PayMap) : PayMap :=
  OMNIBUS_LOT_GROUPS.foldl applyOmnibusGroup m

/-- Reading `pay_dict.get(key, {}).get("Paid", 0)`. -/
def paidAt (m : PayMap) (k : String) : ℚ := ((m k).getD ⟨0, 0⟩).paid

/-! ### Overlay allocation (`_generate_census_geojson`, lines 534-544)

Lots carry `paid`, `billed` and their planar (`EPSG:3424`) area
(`lot_proj["lot_area"] = lot_proj.geometry.area`); census blocks carry
`GEOID`, `POP100`, `ward`.  `gpd.overlay(lot_proj, cb_proj,
how="intersection")` produces one row per lot × block pair whose
intersection is non-degenerate; geometry is abstracted into the
intersection-area function `interArea : lot key → GEOID → ℚ`, with
positive-area pairs kept. -/

/-- One row of `lot_gdf` after `_build_lot_gdf` and reprojection:
`join_key, paid, billed` plus the computed planar `lot_area`. -/
structure Lot where
  join_key : String
  paid : ℚ
  billed : ℚ
  lot_area : ℚ
  deriving Repr, DecidableEq

/-- One row of the census-block registry (`load_jc_census_blocks`):
`GEOID, POP100, ward`. -/
structure CensusBlock where
  GEOID : String
  POP100 : ℕ
  ward : String
  deriving Repr, DecidableEq

/-- One row of the `overlay` GeoDataFrame: lot columns, block columns, and
the computed `intersection_area`. -/
structure OverlayFrag where
  join_key : String
  paid : ℚ
  billed : ℚ
  lot_area : ℚ
  GEOID : String
  POP100 : ℕ
  ward : String
  intersection_area : ℚ
  deriving Repr, DecidableEq

/-- `overlay["weight"] = overlay["intersection_area"] / overlay["lot_area"]`. -/
def OverlayFrag.weight (f : OverlayFrag) : ℚ := f.intersection_area / f.lot_area

/-- `overlay["w_paid"] = overlay["paid"] * overlay["weight"]`. -/
def OverlayFrag.w_paid (f : OverlayFrag) : ℚ := f.paid * f.weight

/-- `overlay["w_billed"] = overlay["billed"] * overlay["weight"]`. -/
def OverlayFrag.w_billed (f : OverlayFrag) : ℚ := f.billed * f.weight

/-- Overlay rows contributed by one lot: one fragment per census block whose
intersection with the lot has positive area. -/
def lotFrags (interArea : String → String → ℚ) (blocks : List CensusBlock)
    (l : Lot) : List OverlayFrag :=
  blocks.filterMap fun b =>
    let a := interArea l.join_key b.GEOID
    if 0 < a then
      some ⟨l.join_key, l.paid, l.billed, l.lot_area, b.GEOID, b.POP100, b.ward, a⟩
    else none

/-- The full `overlay` table: all lot × block intersections. -/
def mkOverlay (interArea : String → String → ℚ) (lots : List Lot)
    (blocks : List CensusBlock) : List OverlayFrag :=
  lots.flatMap (lotFrags interArea blocks)

/-! ### Census-block aggregation (`_generate_census_geojson`, lines 548-571)

`overlay.groupby("GEOID").agg(...)` only has groups for GEOIDs present in
the overlay, so the subsequent `join(..., how="left")` leaves `NaN` for the
other registry blocks and `fillna(0)` turns those into zero; the `Option`
lookups below plus `getD` model that join. -/

/-- One row of `cb_result`: registry attributes plus allocated sums and
derived metrics.  `paid_per_capita` is `Option`-valued: `None` models the
Python `None` that the `else` branch stores (absent, not zero). -/
structure CbRow where
  GEOID : String
  POP100 : ℕ
  ward : String
  paid : ℚ
  billed : ℚ
  area_sqft : ℚ
  paid_per_sqft : ℚ
  paid_per_capita : Option ℚ
  deriving Repr, DecidableEq

/-- `cb_agg`: `overlay.groupby("GEOID")` sums of `w_paid`/`w_billed` —
`none` exactly when the GEOID has no overlay fragment (no group). -/
def cbGroupPB (ov : List OverlayFrag) (g : String) : Option (ℚ × ℚ) :=
  let grp := ov.filter fun f => f.GEOID == g
  if grp.isEmpty then none
  else some ((grp.map OverlayFrag.w_paid).sum, (grp.map OverlayFrag.w_billed).sum)

/-- `paying_overlay = overlay[overlay["paid"] > 0]` (the lot's paid). -/
def payingOverlay (ov : List OverlayFrag) : List OverlayFrag :=
  ov.filter fun f => decide (0 < f.paid)

/-- `cb_lot_area`: per-GEOID sum of `intersection_area` over tax-paying
fragments; `none` when the GEOID has no paying fragment (merge miss). -/
def cbGroupArea (ov : List OverlayFrag) (g : String) : Option ℚ :=
  let grp := (payingOverlay ov).filter fun f => f.GEOID == g
  if grp.isEmpty then none
  else some ((grp.map OverlayFrag.intersection_area).sum)

/-- One `cb_result` row: left join of the aggregates onto a registry block,
`fillna(0)`, then the derived `paid_per_sqft` / `paid_per_capita`
(lines 555-571). -/
def mkCbRow (ov : List OverlayFrag) (b : CensusBlock) : CbRow :=
  let pb := (cbGroupPB ov b.GEOID).getD (0, 0)
  let area := (cbGroupArea ov b.GEOID).getD 0
  { GEOID := b.GEOID
    POP100 := b.POP100
    ward := b.ward
    paid := pb.1
    billed := pb.2
    area_sqft := area
    paid_per_sqft := if 0 < area then pb.1 / area else 0
    paid_per_capita := if 0 < b.POP100 then some (pb.1 / (b.POP100 : ℚ)) else none }

/-- `cb_result`: one row per block of the full registry (left join keeps
every registry row). -/
def cbResult (ov : List OverlayFrag) (registry : List CensusBlock) : List CbRow :=
  registry.map (mkCbRow ov)

/-! ### Ward aggregation (`_aggregate_to_wards`, lines 650-679) -/

/-- One row of the ward registry (`load_jc_wards`). -/
structure Ward where
  ward : String
  council_person : String
  deriving Repr, DecidableEq

/-- The four summed columns of `ward_agg`. -/
structure WardAgg where
  paid : ℚ
  billed : ℚ
  population : ℕ
  area_sqft : ℚ
  deriving Repr, DecidableEq

/-- One output row of the ward result. -/
structure WardRow where
  ward : String
  council_person : String
  paid : ℚ
  billed : ℚ
  population : ℕ
  area_sqft : ℚ
  paid_per_sqft : ℚ
  paid_per_capita : Option ℚ
  deriving Repr, DecidableEq

/-- `ward_agg = cb_result.groupby("ward").agg(...)`: `none` when no census
block row has this ward (group absent, left-join miss). -/
def wardGroupAgg (rows : List CbRow) (w : String) : Option WardAgg :=
  let grp := rows.filter fun r => r.ward == w
  if grp.isEmpty then none
  else some ⟨(grp.map CbRow.paid).sum, (grp.map CbRow.billed).sum,
    (grp.map CbRow.POP100).sum, (grp.map CbRow.area_sqft).sum⟩

/-- One ward output row: left join of `ward_agg` onto the ward registry,
`fillna(0)`, then the same derived-metric rules as the census level
(lines 668-679). -/
def mkWardRow (rows : List CbRow) (w : Ward) : WardRow :=
  let agg := (wardGroupAgg rows w.ward).getD ⟨0, 0, 0, 0⟩
  { ward := w.ward
    council_person := w.council_person
    paid := agg.paid
    billed := agg.billed
    population := agg.population
    area_sqft := agg.area_sqft
    paid_per_sqft := if 0 < agg.area_sqft then agg.paid / agg.area_sqft else 0
    paid_per_capita :=
      if 0 < agg.population then some (agg.paid / (agg.population : ℚ)) else none }

/-- `ward_result`: one row per registry ward. -/
def wardResult (rows : List CbRow) (wards : List Ward) : List WardRow :=
  wards.map (mkWardRow rows)

/-! ### Hole removal (`_remove_small_holes`, lines 507-519) -/

/-- A linear ring, abstracted to the one quantity the code inspects:
`Polygon(r).area`. -/
structure HoleRing where
  area : ℚ
  deriving Repr, DecidableEq

/-- `_MIN_HOLE_SQFT = 200_000`. -/
def MIN_HOLE_SQFT : ℚ := 200000

/-- Shapely geometry as far as `_remove_small_holes` observes it: the
`is_empty` check, the `Polygon` branch (exterior plus interior rings), the
`MultiPolygon` branch (recursion into parts), and the fall-through for any
other geometry type. -/
inductive Geom where
  | emptyGeom : Geom
  | polygon (exterior : HoleRing) (interiors : List HoleRing) : Geom
  | multiPolygon (parts : List Geom) : Geom
  | otherGeom : Geom

/-- `_remove_small_holes`: keep an interior ring iff
`Polygon(r).area >= _MIN_HOLE_SQFT`; recurse over multipolygon parts;
return empty / non-polygonal geometry unchanged. -/
def removeSmallHoles : Geom → Geom
  | Geom.emptyGeom => Geom.emptyGeom
  | Geom.polygon e is => Geom.polygon e (is.filter fun r => decide (MIN_HOLE_SQFT ≤ r.area))
  | Geom.multiPolygon ps => Geom.multiPolygon (ps.attach.map fun x => removeSmallHoles x.1)
  | Geom.otherGeom => Geom.otherGeom
termination_by g => sizeOf g
decreasing_by
  simp_wf
  have := List.sizeOf_lt_of_mem x.2
  omega

/-- Interior rings of a geometry (empty for non-polygons). -/
def Geom.holes : Geom → List HoleRing
  | Geom.polygon _ is => is
  | _ => []

/-- Parts of a multipolygon (empty for other geometries). -/
def Geom.partsOf : Geom → List Geom
  | Geom.multiPolygon ps => ps
  | _ => []

/-! ### Reference-system classification (`is_njsp` / `process_geometry`,
lines 266-309)

A geometry is abstracted to its bounding box and its planar area; the two
fixed reprojections (`njsp_to_wgs84`, `wgs84_to_njsp`) are abstract
function parameters. -/

/-- A geometry as the normalizer observes it: `geom.bounds = (minx, miny,
maxx, maxy)` and `geom.area`. -/
structure SGeom where
  minx : ℚ
  miny : ℚ
  maxx : ℚ
  maxy : ℚ
  area : ℚ
  deriving Repr, DecidableEq

/-- `is_njsp`: `bounds[0] > 1000` means already in NJ State Plane. -/
def is_njsp (g : SGeom) : Bool := decide (1000 < g.minx)

/-- `process_geometry`, abstracted to (display geometry, area in sqft):
if classified planar, the area is taken directly and the display geometry is
the WGS84 reprojection; otherwise the area comes from projecting to the
planar CRS and the original geometry is used for display. -/
def process_geometry (toWGS84 toNJSP : SGeom → SGeom) (g : SGeom) : SGeom × ℚ :=
  if is_njsp g then (toWGS84 g, g.area)
  else (g, (toNJSP g).area)

/-! ### Trimmed census-block geometry (`_generate_census_geojson`,
lines 573-580 and 625-631)

`cb_trimmed` dissolves the tax-paying overlay fragments per GEOID and
simplifies with tolerance 5; the feature loop takes
`cb_trimmed.get(geoid, row.geometry)` and falls back to the registry
geometry when the trimmed one is missing or empty.  The geometry type and
the dissolve/simplify operations are abstract parameters. -/

/-- An overlay row as the trimmed-geometry code observes it: lot key,
GEOID, the lot's `paid`, and the fragment geometry. -/
structure OvGeomRow (G : Type) where
  join_key : String
  GEOID : String
  paid : ℚ
  geom : G

/-- `paying_overlay = overlay[overlay["paid"] > 0]` restricted to the
columns this step uses. -/
def payingGeomRows {G : Type} (ov : List (OvGeomRow G)) : List (OvGeomRow G) :=
  ov.filter fun f => decide (0 < f.paid)

/-- `cb_trimmed.get(geoid)`: dissolve the GEOID's paying fragments and
`simplify(5)`; `none` when the GEOID has no paying fragment (not a key of
the dissolved series). -/
def cbTrimmedGet {G : Type} (dissolveG : List G → G) (simplifyG : ℚ → G → G)
    (ov : List (OvGeomRow G)) (g : String) : Option G :=
  let grp := (payingGeomRows ov).filter fun f => f.GEOID == g
  if grp.isEmpty then none
  else some (simplifyG 5 (dissolveG (grp.map OvGeomRow.geom)))

/-- Geometry chosen for a census-block feature (lines 628-631):
`geom = cb_trimmed.get(geoid, row.geometry)`, then registry fallback when
`geom is None or geom.is_empty`. -/
def cbPrimaryGeom {G : Type} (isEmptyG : G → Bool) (dissolveG : List G → G)
    (simplifyG : ℚ → G → G) (ov : List (OvGeomRow G)) (g : String)
    (registryGeom : G) : G :=
  match cbTrimmedGet dissolveG simplifyG ov g with
  | none => registryGeom
  | some t => if isEmptyG t then registryGeom else t

/-! ## Theorems -/

/-! ### Dict-loop lemmas -/

theorem insertPay_self (k : String) (v : Pay) (m : PayMap) :
    insertPay k v m k = some v := by
  simp [insertPay]

theorem insertPay_other (k q : String) (v : Pay) (m : PayMap) (h : q ≠ k) :
    insertPay k v m q = m q := by
  simp [insertPay, h]

theorem setSplit_notMem (lots : List String) (v : Pay) (m : PayMap)
    (k : String) (h : k ∉ lots) : setSplit lots v m k = m k := by
  induction lots generalizing m with
  | nil => rfl
  | cons a rest ih =>
    simp only [List.mem_cons, not_or] at h
    simp only [setSplit, List.foldl_cons]
    rw [show (List.foldl (fun acc q => insertPay q v acc) (insertPay a v m) rest)
          = setSplit rest v (insertPay a v m) from rfl]
    rw [ih _ h.2, insertPay_other _ _ _ _ h.1]

theorem setSplit_mem (lots : List String) (v : Pay) (m : PayMap)
    (k : String) (h : k ∈ lots) : setSplit lots v m k = some v := by
  induction lots generalizing m with
  | nil => cases h
  | cons a rest ih =>
    simp only [setSplit, List.foldl_cons]
    rw [show (List.foldl (fun acc q => insertPay q v acc) (insertPay a v m) rest)
          = setSplit rest v (insertPay a v m) from rfl]
    by_cases hk : k ∈ rest
    · exact ih _ hk
    · have hak : k = a := by
        rcases List.mem_cons.mp h with h1 | h2
        · exact h1
        · exact absurd h2 hk
      rw [setSplit_notMem _ _ _ _ hk, hak, insertPay_self]

/-! ### Overlay lemmas -/

theorem lotFrags_key (interArea : String → String → ℚ)
    (blocks : List CensusBlock) (l : Lot) (f : OverlayFrag)
    (h : f ∈ lotFrags interArea blocks l) : f.join_key = l.join_key := by
  simp only [lotFrags, List.mem_filterMap] at h
  obtain ⟨b, _, hb⟩ := h
  by_cases hp : 0 < interArea l.join_key b.GEOID
  · simp only [hp, if_pos] at hb
    cases hb
    rfl
  · simp [hp] at hb

theorem lotFrags_cons_pos (interArea : String → String → ℚ) (b : CensusBlock)
    (rest : List CensusBlock) (l : Lot) (hp : 0 < interArea l.join_key b.GEOID) :
    lotFrags interArea (b :: rest) l
      = ⟨l.join_key, l.paid, l.billed, l.lot_area, b.GEOID, b.POP100, b.ward,
          interArea l.join_key b.GEOID⟩ :: lotFrags interArea rest l := by
  simp only [lotFrags, List.filterMap_cons, if_pos hp]

theorem lotFrags_cons_neg (interArea : String → String → ℚ) (b : CensusBlock)
    (rest : List CensusBlock) (l : Lot) (hp : ¬ 0 < interArea l.join_key b.GEOID) :
    lotFrags interArea (b :: rest) l = lotFrags interArea rest l := by
  simp only [lotFrags, List.filterMap_cons, if_neg hp]

/-- Sum of `w_paid` over one lot's fragments, in terms of the raw
intersection areas (area-zero pairs that the overlay drops contribute 0). -/
theorem lotFrags_w_paid_sum (interArea : String → String → ℚ)
    (blocks : List CensusBlock) (l : Lot)
    (hnn : ∀ b ∈ blocks, 0 ≤ interArea l.join_key b.GEOID) :
    ((lotFrags interArea blocks l).map OverlayFrag.w_paid).sum
      = l.paid / l.lot_area * (blocks.map fun b => interArea l.join_key b.GEOID).sum := by
  induction blocks with
  | nil => simp [lotFrags]
  | cons b rest ih =>
    have hb : 0 ≤ interArea l.join_key b.GEOID := hnn b (List.mem_cons_self b rest)
    have hrest : ∀ b' ∈ rest, 0 ≤ interArea l.join_key b'.GEOID :=
      fun b' hb' => hnn b' (List.mem_cons_of_mem b hb')
    by_cases hp : 0 < interArea l.join_key b.GEOID
    · rw [lotFrags_cons_pos interArea b rest l hp]
      simp only [List.map_cons, List.sum_cons]
      rw [ih hrest]
      simp only [OverlayFrag.w_paid, OverlayFrag.weight]
      ring
    · have hz : interArea l.join_key b.GEOID = 0 := le_antisymm (not_lt.mp hp) hb
      rw [lotFrags_cons_neg interArea b rest l hp]
      simp only [List.map_cons, List.sum_cons]
      rw [ih hrest, hz]
      ring

theorem mkOverlay_cons (interArea : String → String → ℚ) (l' : Lot)
    (rest : List Lot) (blocks : List CensusBlock) :
    mkOverlay interArea (l' :: rest) blocks
      = lotFrags interArea blocks l' ++ mkOverlay interArea rest blocks := by
  simp [mkOverlay]

theorem lotFrags_filter_self (interArea : String → String → ℚ)
    (blocks : List CensusBlock) (l : Lot) :
    (lotFrags interArea blocks l).filter (fun f => f.join_key == l.join_key)
      = lotFrags interArea blocks l := by
  apply List.filter_eq_self.mpr
  intro f hf
  simp [lotFrags_key interArea blocks l f hf]

theorem lotFrags_filter_other (interArea : String → String → ℚ)
    (blocks : List CensusBlock) (l' : Lot) (K : String)
    (h : l'.join_key ≠ K) :
    (lotFrags interArea blocks l').filter (fun f => f.join_key == K) = [] := by
  apply List.filter_eq_nil_iff.mpr
  intro f hf
  simp [lotFrags_key interArea blocks l' f hf, h]

theorem mkOverlay_filter_nil (interArea : String → String → ℚ)
    (lots : List Lot) (blocks : List CensusBlock) (K : String)
    (h : ∀ l' ∈ lots, l'.join_key ≠ K) :
    (mkOverlay interArea lots blocks).filter (fun f => f.join_key == K) = [] := by
  induction lots with
  | nil => rfl
  | cons l' rest ih =>
    rw [mkOverlay_cons, List.filter_append,
      lotFrags_filter_other interArea blocks l' K (h l' (List.mem_cons_self l' rest)),
      ih fun q hq => h q (List.mem_cons_of_mem l' hq)]
    rfl

/-! ### Claim theorems: overlay allocation -/

/-- C1: for every lot in the overlay input whose planar geometry is fully
covered by the census blocks (its per-block intersection areas sum to its
total `lot_area`), the sum of `w_paid` over the lot's overlay fragments
equals the lot's paid amount; `weight = intersection_area / lot_area` and
`w_paid = paid * weight` exactly as in lines 542-543.  Rational arithmetic
models the floating-point computation, so "within tolerance" becomes exact
equality. -/
theorem c1_overlay_weighted_paid_total
    (interArea : String → String → ℚ) (lots : List Lot)
    (blocks : List CensusBlock) (l : Lot)
    (hmem : l ∈ lots)
    (hnd : (lots.map Lot.join_key).Nodup)
    (hA : l.lot_area ≠ 0)
    (hnn : ∀ b ∈ blocks, 0 ≤ interArea l.join_key b.GEOID)
    (hcov : (blocks.map fun b => interArea l.join_key b.GEOID).sum = l.lot_area) :
    (((mkOverlay interArea lots blocks).filter
        fun f => f.join_key == l.join_key).map OverlayFrag.w_paid).sum = l.paid := by
  induction lots with
  | nil => cases hmem
  | cons l' rest ih =>
    obtain ⟨hhead, hnd'⟩ := List.nodup_cons.mp hnd
    rw [mkOverlay_cons, List.filter_append, List.map_append, List.sum_append]
    rcases List.mem_cons.mp hmem with rfl | hmem'
    · rw [lotFrags_filter_self]
      rw [mkOverlay_filter_nil interArea rest blocks l.join_key
          (fun q hq hqe => hhead (hqe ▸ List.mem_map.mpr ⟨q, hq, rfl⟩))]
      simp only [List.map_nil, List.sum_nil, add_zero]
      rw [lotFrags_w_paid_sum interArea blocks l hnn, hcov,
        div_mul_cancel₀ _ hA]
    · have hkey : l'.join_key ≠ l.join_key := by
        intro he
        exact hhead (he ▸ List.mem_map.mpr ⟨l, hmem', rfl⟩)
      rw [lotFrags_filter_other interArea blocks l' l.join_key hkey]
      simp only [List.map_nil, List.sum_nil, zero_add]
      exact ih hmem' hnd'

theorem c1_overlay_weighted_paid_total_witness :
    (((mkOverlay (fun _ g => if g = "g1" then (4 : ℚ) else 6)
        [⟨"100-5", 100, 200, 10⟩] [⟨"g1", 3, "A"⟩, ⟨"g2", 4, "B"⟩]).filter
        fun f => f.join_key == (Lot.mk "100-5" 100 200 10).join_key).map
      OverlayFrag.w_paid).sum = (Lot.mk "100-5" 100 200 10).paid :=
  c1_overlay_weighted_paid_total (fun _ g => if g = "g1" then (4 : ℚ) else 6)
    [⟨"100-5", 100, 200, 10⟩] [⟨"g1", 3, "A"⟩, ⟨"g2", 4, "B"⟩]
    ⟨"100-5", 100, 200, 10⟩ (by simp) (by simp) (by norm_num)
    (by decide)
    (by norm_num [show ("g2" : String) ≠ "g1" from by decide])

/-- Splitting a payment over sub-fragments in proportion to their area and
then allocating each sub-fragment yields, per block, the sum
`paid * Σ interArea / totalArea`. -/
theorem splitAllocSum (paid A : ℚ) (parts : List (ℚ × ℚ))
    (h : ∀ p ∈ parts, p.1 ≠ 0) :
    (parts.map fun p => (paid * p.1 / A) * (p.2 / p.1)).sum
      = paid * (parts.map Prod.snd).sum / A := by
  induction parts with
  | nil => simp
  | cons p rest ih =>
    have hp : p.1 ≠ 0 := h p (List.mem_cons_self p rest)
    have hr := ih fun q hq => h q (List.mem_cons_of_mem p hq)
    simp only [List.map_cons, List.sum_cons]
    have key : (paid * p.1 / A) * (p.2 / p.1) = paid * p.2 / A := by
      rw [div_mul_div_comm,
        show paid * p.1 * p.2 = p.1 * (paid * p.2) by ring,
        show A * p.1 = p.1 * A by ring]
      exact mul_div_mul_left _ _ hp
    rw [key, hr, div_add_div_same, ← mul_add]

/-- C3: allocation is invariant to pre-union fragmentation.  For a lot made
of sub-fragments with positive areas `p.1` and per-block intersection areas
`p.2`, allocating the dissolved geometry (whose area and block intersection
are the sums, as for disjoint fragments) gives each block the same amount as
splitting the payment in proportion to fragment area, allocating each
fragment separately with the code's `w_paid` formula, and summing. -/
theorem c3_allocation_fragmentation_invariant
    (K geoid wname : String) (pop : ℕ) (paid billed : ℚ)
    (parts : List (ℚ × ℚ))
    (hpos : ∀ p ∈ parts, 0 < p.1)
    (dissolvedArea dissolvedInter : ℚ)
    (hdA : dissolvedArea = (parts.map Prod.fst).sum)
    (hdI : dissolvedInter = (parts.map Prod.snd).sum) :
    OverlayFrag.w_paid
        ⟨K, paid, billed, dissolvedArea, geoid, pop, wname, dissolvedInter⟩
      = (parts.map fun p =>
          OverlayFrag.w_paid
            ⟨K, paid * p.1 / dissolvedArea, billed, p.1, geoid, pop, wname, p.2⟩).sum := by
  subst hdA hdI
  simp only [OverlayFrag.w_paid, OverlayFrag.weight]
  rw [splitAllocSum paid _ parts (fun p hp => ne_of_gt (hpos p hp)),
    mul_div_assoc]

theorem c3_allocation_fragmentation_invariant_witness :
    OverlayFrag.w_paid ⟨"100-5", 10, 20, 5, "g1", 7, "A", 3⟩
      = ([((2 : ℚ), (1 : ℚ)), (3, 2)].map fun p =>
          OverlayFrag.w_paid ⟨"100-5", 10 * p.1 / 5, 20, p.1, "g1", 7, "A", p.2⟩).sum :=
  c3_allocation_fragmentation_invariant "100-5" "g1" "A" 7 10 20
    [(2, 1), (3, 2)] (by decide) 5 3 (by norm_num) (by norm_num)

/-! ### Claim theorems: omnibus redistribution -/

/-- C2: when the source key `18702-29` has a payment record, lot-granularity
redistribution gives each of the three group keys exactly a third of the
source's paid and billed (created if absent, replaced if present), and the
redistributed paid summed over the group equals the source's paid. -/
theorem c2_omnibus_redistribution (m : PayMap) (p : Pay)
    (h : m "18702-29" = some p) :
    (∀ k ∈ ["18702-27", "18702-28", "18702-29"],
        redistributeOmnibus m k = some ⟨p.paid / 3, p.billed / 3⟩)
    ∧ (["18702-27", "18702-28", "18702-29"].map
        fun k => paidAt (redistributeOmnibus m) k).sum = p.paid := by
  have hred : redistributeOmnibus m
      = setSplit ["18702-27", "18702-28", "18702-29"] ⟨p.paid / 3, p.billed / 3⟩
          (ensureKeys ["18702-27", "18702-28", "18702-29"] m) := by
    simp only [redistributeOmnibus, OMNIBUS_LOT_GROUPS, List.foldl_cons,
      List.foldl_nil, applyOmnibusGroup, h]
    norm_num
  have hmem : ∀ k ∈ ["18702-27", "18702-28", "18702-29"],
      redistributeOmnibus m k = some ⟨p.paid / 3, p.billed / 3⟩ := by
    intro k hk
    rw [hred]
    exact setSplit_mem _ _ _ _ hk
  refine ⟨hmem, ?_⟩
  simp only [List.map_cons, List.map_nil, List.sum_cons, List.sum_nil, paidAt]
  rw [hmem "18702-27" (by simp), hmem "18702-28" (by simp),
    hmem "18702-29" (by simp)]
  simp only [Option.getD_some]
  ring

theorem c2_omnibus_redistribution_witness :
    (fun k => if k = "18702-29" then some (Pay.mk 120000 90000) else none)
        "18702-29" = some (Pay.mk 120000 90000)
    ∧ redistributeOmnibus
        (fun k => if k = "18702-29" then some ⟨120000, 90000⟩ else none)
        "18702-27" = some ⟨40000, 30000⟩
    ∧ redistributeOmnibus
        (fun k => if k = "18702-29" then some ⟨120000, 90000⟩ else none)
        "18702-28" = some ⟨40000, 30000⟩
    ∧ redistributeOmnibus
        (fun k => if k = "18702-29" then some ⟨120000, 90000⟩ else none)
        "18702-29" = some ⟨40000, 30000⟩
    ∧ (["18702-27", "18702-28", "18702-29"].map
        fun k => paidAt (redistributeOmnibus
          (fun k => if k = "18702-29" then some ⟨120000, 90000⟩ else none)) k).sum
      = 120000 := by
  have h := c2_omnibus_redistribution
    (fun k => if k = "18702-29" then some ⟨120000, 90000⟩ else none)
    ⟨120000, 90000⟩ (by simp)
  have e : (Pay.mk ((120000 : ℚ) / 3) ((90000 : ℚ) / 3)) = Pay.mk 40000 30000 := by
    simp only [Pay.mk.injEq]
    norm_num
  refine ⟨by simp, ?_, ?_, ?_, h.2⟩
  · rw [h.1 "18702-27" (by simp), e]
  · rw [h.1 "18702-28" (by simp), e]
  · rw [h.1 "18702-29" (by simp), e]

/-- C10: when the source key `18702-29` has no payment record for the year,
the redistribution pass leaves the aggregated payment map pointwise
unchanged: no sibling value is modified and no key is created. -/
theorem c10_omnibus_source_absent_noop (m : PayMap)
    (h : m "18702-29" = none) :
    ∀ k, redistributeOmnibus m k = m k := by
  intro k
  simp only [redistributeOmnibus, OMNIBUS_LOT_GROUPS, List.foldl_cons,
    List.foldl_nil, applyOmnibusGroup, h]

theorem c10_omnibus_source_absent_noop_witness :
    redistributeOmnibus (fun _ => none) "18702-27" = none :=
  c10_omnibus_source_absent_noop (fun _ => none) rfl "18702-27"

/-! ### Claim theorems: census-block and ward aggregation -/

/-- C5: every block of the census registry appears in the census-block
result (the `how="left"` join keeps all registry rows); a block with no
overlay fragment gets `paid = 0` and `billed = 0` (the `fillna(0)`), never
dropped. -/
theorem c5_census_left_join_retains_blocks (ov : List OverlayFrag)
    (registry : List CensusBlock) (b : CensusBlock) (hmem : b ∈ registry) :
    (cbResult ov registry).length = registry.length
    ∧ mkCbRow ov b ∈ cbResult ov registry
    ∧ (mkCbRow ov b).GEOID = b.GEOID
    ∧ ((ov.filter fun f => f.GEOID == b.GEOID) = [] →
        (mkCbRow ov b).paid = 0 ∧ (mkCbRow ov b).billed = 0) := by
  refine ⟨by simp [cbResult], List.mem_map.mpr ⟨b, hmem, rfl⟩, rfl, ?_⟩
  intro hnone
  have h1 : cbGroupPB ov b.GEOID = none := by
    simp only [cbGroupPB, hnone, List.isEmpty_nil, if_true]
  constructor <;> simp [mkCbRow, h1]

theorem c5_census_left_join_retains_blocks_witness :
    mkCbRow [] ⟨"g1", 5, "A"⟩ ∈ cbResult [] [⟨"g1", 5, "A"⟩]
    ∧ (mkCbRow [] ⟨"g1", 5, "A"⟩).paid = 0
    ∧ (mkCbRow [] ⟨"g1", 5, "A"⟩).billed = 0 := by
  have h := c5_census_left_join_retains_blocks [] [⟨"g1", 5, "A"⟩]
    ⟨"g1", 5, "A"⟩ (by simp)
  exact ⟨h.2.1, (h.2.2.2 rfl).1, (h.2.2.2 rfl).2⟩

/-- C4: every ward row of the ward-level output carries exactly the sums of
paid, billed, population (`POP100`) and `area_sqft` over the census-block
rows assigned to that ward (rollup consistency; a ward with no census block
gets the empty sums via the left-join `fillna(0)`). -/
theorem c4_ward_rollup (rows : List CbRow) (wards : List Ward)
    (wr : WardRow) (hmem : wr ∈ wardResult rows wards) :
    wr.paid = ((rows.filter fun r => r.ward == wr.ward).map CbRow.paid).sum
    ∧ wr.billed = ((rows.filter fun r => r.ward == wr.ward).map CbRow.billed).sum
    ∧ wr.population = ((rows.filter fun r => r.ward == wr.ward).map CbRow.POP100).sum
    ∧ wr.area_sqft = ((rows.filter fun r => r.ward == wr.ward).map CbRow.area_sqft).sum := by
  obtain ⟨w, hw, rfl⟩ := List.mem_map.mp hmem
  by_cases he : (rows.filter fun r => r.ward == w.ward).isEmpty
  · have hnil : rows.filter (fun r => r.ward == w.ward) = [] :=
      List.isEmpty_iff.mp he
    refine ⟨?_, ?_, ?_, ?_⟩ <;> simp [mkWardRow, wardGroupAgg, he, hnil]
  · refine ⟨?_, ?_, ?_, ?_⟩ <;> simp [mkWardRow, wardGroupAgg, he]

theorem c4_ward_rollup_witness :
    (mkWardRow [⟨"g1", 5, "A", 100, 150, 50, 2, some 20⟩] ⟨"A", "X"⟩).paid
        = (([⟨"g1", 5, "A", 100, 150, 50, 2, some 20⟩].filter
            fun r => r.ward == (mkWardRow [⟨"g1", 5, "A", 100, 150, 50, 2, some 20⟩]
              ⟨"A", "X"⟩).ward).map CbRow.paid).sum
    ∧ (mkWardRow [⟨"g1", 5, "A", 100, 150, 50, 2, some 20⟩] ⟨"A", "X"⟩).billed
        = (([⟨"g1", 5, "A", 100, 150, 50, 2, some 20⟩].filter
            fun r => r.ward == (mkWardRow [⟨"g1", 5, "A", 100, 150, 50, 2, some 20⟩]
              ⟨"A", "X"⟩).ward).map CbRow.billed).sum
    ∧ (mkWardRow [⟨"g1", 5, "A", 100, 150, 50, 2, some 20⟩] ⟨"A", "X"⟩).population
        = (([⟨"g1", 5, "A", 100, 150, 50, 2, some 20⟩].filter
            fun r => r.ward == (mkWardRow [⟨"g1", 5, "A", 100, 150, 50, 2, some 20⟩]
              ⟨"A", "X"⟩).ward).map CbRow.POP100).sum
    ∧ (mkWardRow [⟨"g1", 5, "A", 100, 150, 50, 2, some 20⟩] ⟨"A", "X"⟩).area_sqft
        = (([⟨"g1", 5, "A", 100, 150, 50, 2, some 20⟩].filter
            fun r => r.ward == (mkWardRow [⟨"g1", 5, "A", 100, 150, 50, 2, some 20⟩]
              ⟨"A", "X"⟩).ward).map CbRow.area_sqft).sum :=
  c4_ward_rollup [⟨"g1", 5, "A", 100, 150, 50, 2, some 20⟩] [⟨"A", "X"⟩]
    (mkWardRow [⟨"g1", 5, "A", 100, 150, 50, 2, some 20⟩] ⟨"A", "X"⟩)
    (by simp [wardResult])

/-- C6: in every census-block and ward result row, `paid_per_sqft` is
`paid / area_sqft` when `area_sqft > 0` and `0` otherwise, and
`paid_per_capita` is `paid / population` when `population > 0` and absent
(`none` — not zero) exactly when the population is 0.  The model is total:
no division fault can occur (`DivisionGuard`). -/
theorem c6_derived_metrics (ov : List OverlayFrag) (registry : List CensusBlock)
    (rows : List CbRow) (wards : List Ward) :
    (∀ row ∈ cbResult ov registry,
        row.paid_per_sqft = (if 0 < row.area_sqft then row.paid / row.area_sqft else 0)
        ∧ (row.paid_per_capita = none ↔ row.POP100 = 0)
        ∧ (0 < row.POP100 →
            row.paid_per_capita = some (row.paid / (row.POP100 : ℚ))))
    ∧ (∀ wr ∈ wardResult rows wards,
        wr.paid_per_sqft = (if 0 < wr.area_sqft then wr.paid / wr.area_sqft else 0)
        ∧ (wr.paid_per_capita = none ↔ wr.population = 0)
        ∧ (0 < wr.population →
            wr.paid_per_capita = some (wr.paid / (wr.population : ℚ)))) := by
  constructor
  · intro row hrow
    obtain ⟨b, hb, rfl⟩ := List.mem_map.mp hrow
    refine ⟨rfl, ?_, ?_⟩
    · by_cases hp : 0 < b.POP100
      · have h0 : b.POP100 ≠ 0 := Nat.pos_iff_ne_zero.mp hp
        simp [mkCbRow, hp]
        exact h0
      · have h0 : b.POP100 = 0 := Nat.eq_zero_of_not_pos hp
        simp [mkCbRow, hp, h0]
    · intro hp
      simp only [mkCbRow] at hp ⊢
      simp [hp]
  · intro wr hwr
    obtain ⟨w, hw, rfl⟩ := List.mem_map.mp hwr
    refine ⟨rfl, ?_, ?_⟩
    · by_cases hp : 0 < ((wardGroupAgg rows w.ward).getD ⟨0, 0, 0, 0⟩).population
      · have h0 : ((wardGroupAgg rows w.ward).getD ⟨0, 0, 0, 0⟩).population ≠ 0 :=
          Nat.pos_iff_ne_zero.mp hp
        simp [mkWardRow, hp]
        exact h0
      · have h0 : ((wardGroupAgg rows w.ward).getD ⟨0, 0, 0, 0⟩).population = 0 :=
          Nat.eq_zero_of_not_pos hp
        simp [mkWardRow, hp, h0]
    · intro hp
      simp only [mkWardRow] at hp ⊢
      simp [hp]

theorem c6_derived_metrics_witness :
    (mkCbRow [] ⟨"g1", 0, "A"⟩).paid_per_sqft = 0
    ∧ (mkCbRow [] ⟨"g1", 0, "A"⟩).paid_per_capita = none := by
  have h := (c6_derived_metrics [] [⟨"g1", 0, "A"⟩] [] []).1
    (mkCbRow [] ⟨"g1", 0, "A"⟩) (by simp [cbResult])
  constructor
  · rw [h.1]
    simp [mkCbRow, cbGroupArea, cbGroupPB, payingOverlay]
  · exact h.2.1.mpr rfl

/-! ### Claim theorems: ward boundary hole removal -/

/-- C7: `_remove_small_holes` keeps an interior hole iff its area is at
least `_MIN_HOLE_SQFT = 200_000` (so a hole of exactly the threshold area is
retained and one a unit below is removed), on every polygon and, via the
recursion, on every part of every multipolygon. -/
theorem c7_remove_small_holes (e : HoleRing) (is : List HoleRing)
    (r : HoleRing) (ps : List Geom) (g : Geom) (hg : g ∈ ps) :
    (r ∈ (removeSmallHoles (Geom.polygon e is)).holes
        ↔ r ∈ is ∧ MIN_HOLE_SQFT ≤ r.area)
    ∧ removeSmallHoles g ∈ (removeSmallHoles (Geom.multiPolygon ps)).partsOf
    ∧ removeSmallHoles (Geom.polygon e [⟨200000⟩]) = Geom.polygon e [⟨200000⟩]
    ∧ removeSmallHoles (Geom.polygon e [⟨199999⟩]) = Geom.polygon e [] := by
  refine ⟨?_, ?_, ?_, ?_⟩
  · simp [removeSmallHoles, Geom.holes, List.mem_filter]
  · simp only [removeSmallHoles, Geom.partsOf]
    exact List.mem_map.mpr ⟨⟨g, hg⟩, List.mem_attach _ _, rfl⟩
  · norm_num [removeSmallHoles, MIN_HOLE_SQFT]
  · norm_num [removeSmallHoles, MIN_HOLE_SQFT]

theorem c7_remove_small_holes_witness :
    ((⟨200000⟩ : HoleRing) ∈ (removeSmallHoles (Geom.polygon ⟨1⟩ [⟨200000⟩])).holes
        ↔ (⟨200000⟩ : HoleRing) ∈ ([⟨200000⟩] : List HoleRing)
            ∧ MIN_HOLE_SQFT ≤ (⟨200000⟩ : HoleRing).area)
    ∧ removeSmallHoles Geom.otherGeom
        ∈ (removeSmallHoles (Geom.multiPolygon [Geom.otherGeom])).partsOf
    ∧ removeSmallHoles (Geom.polygon ⟨1⟩ [⟨200000⟩]) = Geom.polygon ⟨1⟩ [⟨200000⟩]
    ∧ removeSmallHoles (Geom.polygon ⟨1⟩ [⟨199999⟩]) = Geom.polygon ⟨1⟩ [] :=
  c7_remove_small_holes ⟨1⟩ [⟨200000⟩] ⟨200000⟩ [Geom.otherGeom]
    Geom.otherGeom (by simp)

/-! ### Claim theorems: reference-system classification -/

/-- C8: the normalizer's reference-system classification depends only on the
bounding box (two geometries with the same bounding-box minimum X classify
identically); when `bounds[0] > 1000` the geometry is treated as planar
(area taken directly, display geometry reprojected to WGS84), and otherwise
as geographic degrees (area from the planar reprojection, original geometry
for display). -/
theorem c8_crs_classification (toWGS84 toNJSP : SGeom → SGeom) (g h : SGeom)
    (hbb : g.minx = h.minx) :
    is_njsp g = is_njsp h
    ∧ (1000 < g.minx →
        process_geometry toWGS84 toNJSP g = (toWGS84 g, g.area))
    ∧ (¬ 1000 < g.minx →
        process_geometry toWGS84 toNJSP g = (g, (toNJSP g).area)) := by
  refine ⟨by simp [is_njsp, hbb], ?_, ?_⟩
  · intro hx
    simp [process_geometry, is_njsp, hx]
  · intro hx
    simp [process_geometry, is_njsp, hx]

theorem c8_crs_classification_witness :
    is_njsp ⟨2000, 0, 3000, 10, 50⟩ = is_njsp ⟨2000, 1, 1, 1, 7⟩
    ∧ process_geometry id id ⟨2000, 0, 3000, 10, 50⟩
        = (id (⟨2000, 0, 3000, 10, 50⟩ : SGeom), (⟨2000, 0, 3000, 10, 50⟩ : SGeom).area) := by
  have h := c8_crs_classification id id ⟨2000, 0, 3000, 10, 50⟩ ⟨2000, 1, 1, 1, 7⟩ rfl
  exact ⟨h.1, h.2.1 (by norm_num)⟩

/-! ### Claim theorems: trimmed census-block geometry -/

/-- C9: a census-block feature's primary geometry is the dissolve of the
block's tax-paying overlay fragments simplified with tolerance 5, and it
falls back to the registry geometry exactly when the GEOID has no paying
fragment (no trimmed entry) or the trimmed geometry is empty. -/
theorem c9_trimmed_geometry_fallback {G : Type} (isEmptyG : G → Bool)
    (dissolveG : List G → G) (simplifyG : ℚ → G → G)
    (ov : List (OvGeomRow G)) (g : String) (registryGeom : G) :
    (((payingGeomRows ov).filter fun f => f.GEOID == g) ≠ [] →
        isEmptyG (simplifyG 5 (dissolveG
          (((payingGeomRows ov).filter fun f => f.GEOID == g).map OvGeomRow.geom))) = false →
        cbPrimaryGeom isEmptyG dissolveG simplifyG ov g registryGeom
          = simplifyG 5 (dissolveG
              (((payingGeomRows ov).filter fun f => f.GEOID == g).map OvGeomRow.geom)))
    ∧ (((payingGeomRows ov).filter fun f => f.GEOID == g) = [] →
        cbPrimaryGeom isEmptyG dissolveG simplifyG ov g registryGeom = registryGeom)
    ∧ (((payingGeomRows ov).filter fun f => f.GEOID == g) ≠ [] →
        isEmptyG (simplifyG 5 (dissolveG
          (((payingGeomRows ov).filter fun f => f.GEOID == g).map OvGeomRow.geom))) = true →
        cbPrimaryGeom isEmptyG dissolveG simplifyG ov g registryGeom = registryGeom) := by
  refine ⟨?_, ?_, ?_⟩
  · intro hne hfe
    have he : ((payingGeomRows ov).filter fun f => f.GEOID == g).isEmpty = false := by
      cases hb : ((payingGeomRows ov).filter fun f => f.GEOID == g).isEmpty
      · rfl
      · exact absurd (List.isEmpty_iff.mp hb) hne
    simp [cbPrimaryGeom, cbTrimmedGet, he, hfe]
  · intro hnil
    simp [cbPrimaryGeom, cbTrimmedGet, hnil]
  · intro hne hfe
    have he : ((payingGeomRows ov).filter fun f => f.GEOID == g).isEmpty = false := by
      cases hb : ((payingGeomRows ov).filter fun f => f.GEOID == g).isEmpty
      · rfl
      · exact absurd (List.isEmpty_iff.mp hb) hne
    simp [cbPrimaryGeom, cbTrimmedGet, he, hfe]

theorem c9_trimmed_geometry_fallback_witness :
    cbPrimaryGeom (fun n => n == 0) List.sum (fun _ x => x)
      [⟨"1-1", "g", 3, (7 : ℕ)⟩] "g" 42 = 7 := by
  have h := (c9_trimmed_geometry_fallback (fun n => n == 0) List.sum (fun _ x => x)
      [⟨"1-1", "g", 3, (7 : ℕ)⟩] "g" 42).1
    (by simp [payingGeomRows]) (by simp [payingGeomRows])
  simpa [payingGeomRows] using h
